import Mathlib

/-!
Verification development for the rewire-fastapi plugin: a shallow embedding of
`src/rewire_fastapi/__init__.py`, `src/rewire_fastapi/patch.py` and
`src/rewire_fastapi/dependable.py`, with theorems about the behaviour of the
configuration-driven setup and run hooks.

Python callables are modelled as natural-number identifiers where only their
identity matters, and as Lean functions where their input/output behaviour
matters. Python dicts keyed by callables are modelled as association lists.
-/

namespace RewireFastapi

/-! ### Server selection (`run_fastapi_app`, `Config.server`) -/

/-- Model of the `server` configuration key, `Literal["uvicorn", "hypercorn", None]`. -/
inductive ServerSel where
  | uvicorn
  | hypercorn
  | noServer
  deriving DecidableEq, Repr

/-- Which external ASGI server helper the run hook delegates to. -/
inductive RunAction where
  | runsUvicorn
  | runsHypercorn
  | runsNothing
  deriving DecidableEq, Repr

/-- Model of `run_fastapi_app`: `if cfg.server == "uvicorn": await run_uvicorn(...)`,
`elif cfg.server == "hypercorn": await run_hypercorn(...)`, otherwise nothing. -/
def run_fastapi_app : ServerSel → RunAction
  | .uvicorn => .runsUvicorn
  | .hypercorn => .runsHypercorn
  | .noServer => .runsNothing

/-! ### Uvicorn and hypercorn runners (`run_uvicorn`, `run_hypercorn`) -/

/-- Model of `UvicornConfig` (with `extra="allow"`) after it has been expanded into a
`uvicorn.config.Config`: the declared fields plus the extra keys the runner inspects
(`reload`, `uds`, `workers`), at the uvicorn defaults when not supplied. -/
structure UvicornSettings where
  enabled : Bool := true
  host : String := "0.0.0.0"
  port : Nat := 8000
  reload : Bool := false
  uds : Option String := none
  workers : Nat := 1
  deriving DecidableEq, Repr

/-- Observable outcome of `run_uvicorn`. -/
inductive UvicornOutcome where
  | skipped
  | errNotImplemented (msg : String)
  | served
  deriving DecidableEq, Repr

/-- Model of `run_uvicorn`: returns early when `cfg.uvicorn.enabled` is false, raises
`NotImplementedError` on `reload`, `uds` or more than one worker, and otherwise
reaches `server.serve()`. -/
def run_uvicorn (s : UvicornSettings) : UvicornOutcome :=
  if !s.enabled then .skipped
  else if s.reload then .errNotImplemented "reloads are not supported"
  else if s.uds.isSome then .errNotImplemented "uds is not implemented"
  else if s.workers > 1 then .errNotImplemented "Multiprocess is not implemented"
  else .served

/-- Model of `HypercornConfig` (`enabled` defaults to false, `bind` to "0.0.0.0:8000"). -/
structure HypercornSettings where
  enabled : Bool := false
  bind : String := "0.0.0.0:8000"
  deriving DecidableEq, Repr

/-- Values appearing in the mapping handed to `hypercorn.config.Config.from_mapping`. -/
inductive HVal where
  | hb (b : Bool)
  | hs (s : String)
  deriving DecidableEq, Repr

/-- Model of `cfg.hypercorn.model_dump()`: every field of the model, the `enabled`
key included. -/
def hypercornMapping (s : HypercornSettings) : List (String × HVal) :=
  [("enabled", HVal.hb s.enabled), ("bind", HVal.hs s.bind)]

/-- Observable outcome of `run_hypercorn`. -/
inductive HypercornOutcome where
  | servedAsyncio (cfg : List (String × HVal))
  | servedTrio (cfg : List (String × HVal))
  | errNotImplemented (msg : String)
  deriving DecidableEq, Repr

/-- Model of `run_hypercorn`: builds the config from the full model dump and serves
under asyncio or trio, raising `NotImplementedError` for any other async library.
The `enabled` flag is never consulted. -/
def run_hypercorn (s : HypercornSettings) (lib : String) : HypercornOutcome :=
  if lib = "asyncio" then .servedAsyncio (hypercornMapping s)
  else if lib = "trio" then .servedTrio (hypercornMapping s)
  else .errNotImplemented ("Unable to start hypercorn with " ++ lib)

/-! ### Dependable wrapper (`dependable.py`) -/

/-- Model of `fastapi.params.Depends`: a dependency callable (possibly absent) and a
`use_cache` flag, `True` by default. -/
structure DependsParam (α β : Type) where
  dependency : Option (α → β)
  use_cache : Bool := true

/-- Model of `DependableWrapper.__init__`: `super().__init__(callable)` stores the
callable as the dependency (with the default `use_cache=True`). -/
def DependableWrapper (fn : α → β) : DependsParam α β :=
  { dependency := some fn }

/-- Model of `DependableWrapper.__call__`: asserts the dependency is present (`none`
would fail the assertion) and applies it to the given arguments. -/
def wrapperCall (w : DependsParam α β) (a : α) : Option β :=
  w.dependency.map (fun f => f a)

/-- Model of the (untyped) `Dependable` entry point: `return DependableWrapper(fn)`. -/
def Dependable (fn : α → β) : DependsParam α β :=
  DependableWrapper fn

/-! ### Partial-update helper (`patch.py`) -/

/-- Model of attribute values on Python objects. -/
inductive Val where
  | vnone
  | vint (n : Int)
  | vstr (s : String)
  deriving DecidableEq, Repr

/-- Model of the pydantic instance stored in `Patch.data`: the set of explicitly set
fields (`__pydantic_fields_set__`) and attribute access on the instance (a pydantic
instance carries a value for every attribute it is asked for here). -/
structure PatchData where
  fieldsSet : List String
  getattr : String → Val

/-- Model of `setattr(to, field, value)` on a plain Python object, the object viewed
as its attribute map. -/
def setattrFn (o : String → Val) (k : String) (v : Val) : String → Val :=
  fun q => if q = k then v else o q

/-- Model of a `Patch` instance: `__init__` stores the validated data. -/
structure Patch where
  data : PatchData

/-- Model of `Patch.apply`: for each field in `__pydantic_fields_set__`, copy the
field's value from `self.data` onto the target object. -/
def Patch.apply (p : Patch) (tgt : String → Val) : String → Val :=
  p.data.fieldsSet.foldl (fun o field => setattrFn o field (p.data.getattr field)) tgt

/-- Model of pydantic annotations as they appear in `_update_model`:
base annotations, unions built with `|`, and `SkipJsonSchema[None]`. -/
inductive Ty where
  | named (s : String)
  | union (a b : Ty)
  | skipJsonSchemaNone
  deriving DecidableEq, Repr

/-- Model of a pydantic field declaration: its annotation and its default
(`none` means the field is required). -/
structure FieldDecl where
  annotation : Ty
  default : Option Val
  deriving DecidableEq, Repr

/-- Model of a pydantic model class: name, docstring, module, `model_fields`
(an insertion-ordered dict, so an association list with distinct keys), and the
base class it was derived from, when any. -/
inductive ModelType where
  | mk (name : String) (doc : Option String) (module : String)
      (fields : List (String × FieldDecl)) (base : Option ModelType)

/-- Class name of a model. -/
def ModelType.name : ModelType → String
  | .mk n _ _ _ _ => n

/-- Docstring of a model. -/
def ModelType.doc : ModelType → Option String
  | .mk _ d _ _ _ => d

/-- Defining module of a model. -/
def ModelType.module : ModelType → String
  | .mk _ _ m _ _ => m

/-- Field dict (`model_fields`) of a model. -/
def ModelType.fields : ModelType → List (String × FieldDecl)
  | .mk _ _ _ fs _ => fs

/-- Base class of a model. -/
def ModelType.base : ModelType → Option ModelType
  | .mk _ _ _ _ b => b

/-- Lookup in a field dict. -/
def lookupField (l : List (String × FieldDecl)) (k : String) : Option FieldDecl :=
  (l.find? (fun kv => kv.1 == k)).map Prod.snd

/-- Model of pydantic field collection for a subclass: the inherited fields, each
overridden by a redeclaration with the same name when one is given, followed by the
declared fields that are new. -/
def collectFields (inherited decls : List (String × FieldDecl)) :
    List (String × FieldDecl) :=
  inherited.map (fun kv => (kv.1, (lookupField decls kv.1).getD kv.2)) ++
    decls.filter (fun kv => (lookupField inherited kv.1).isNone)

/-- Model of `pydantic.create_model` as `_update_model` calls it: a new class with the
given name, `__doc__`, `__base__` and `__module__`, whose `model_fields` collect the
base's fields overridden by the keyword declarations. -/
def create_model (name : String) (doc : Option String) (base : ModelType)
    (module : String) (decls : List (String × FieldDecl)) : ModelType :=
  .mk name doc module (collectFields (ModelType.fields base) decls) (some base)

/-- Re-declaration `_update_model` makes for one field: annotation
`v.annotation | SkipJsonSchema[None]` with default `None`. -/
def patchFieldDecl (fd : FieldDecl) : FieldDecl :=
  { annotation := Ty.union (FieldDecl.annotation fd) Ty.skipJsonSchemaNone,
    default := some Val.vnone }

/-- Model of `Patch._update_model`: `create_model(f"{model.__name__}Patch",
__doc__=model.__doc__, __base__=(model,), __module__=model.__module__, **{k:
(v.annotation | SkipJsonSchema[None], None) for k, v in model.model_fields.items()})`. -/
def Patch.update_model (m : ModelType) : ModelType :=
  create_model (ModelType.name m ++ "Patch") (ModelType.doc m) m (ModelType.module m)
    ((ModelType.fields m).map (fun kv => (kv.1, patchFieldDecl kv.2)))

/-! ### Dependant trees and override rewriting (`patch_dependant`) -/

/-- Python callables where only identity matters, as identifiers. -/
abbrev Callable := Nat

/-- The `dependency_overrides` dict, original callable to replacement, as an
association list (Python dict keys are distinct; lookup takes the first match). -/
abbrev Overrides := List (Callable × Callable)

/-- Dict membership/lookup: `dependant.call in config.dependency_overrides` and
`config.dependency_overrides[dependant.call]`. -/
def lookupOv (ov : Overrides) (c : Callable) : Option Callable :=
  (ov.find? (fun kv => kv.1 == c)).map Prod.snd

/-- Model of `fastapi.dependencies.models.Dependant`: exactly the fields
`patch_dependant` reads, plus the sub-dependency list. -/
inductive Dependant where
  | mk (call : Callable) (path : Option String) (name : Option String)
      (use_cache : Bool) (security_scopes : List String)
      (dependencies : List Dependant)

/-- The wrapped callable of a dependant. -/
def Dependant.call : Dependant → Callable
  | .mk c _ _ _ _ _ => c

/-- The path of a dependant (may be absent). -/
def Dependant.path : Dependant → Option String
  | .mk _ p _ _ _ _ => p

/-- The name of a dependant. -/
def Dependant.name : Dependant → Option String
  | .mk _ _ n _ _ _ => n

/-- The `use_cache` flag of a dependant. -/
def Dependant.use_cache : Dependant → Bool
  | .mk _ _ _ uc _ _ => uc

/-- The security scopes of a dependant. -/
def Dependant.security_scopes : Dependant → List String
  | .mk _ _ _ _ ss _ => ss

/-- The sub-dependency list of a dependant. -/
def Dependant.dependencies : Dependant → List Dependant
  | .mk _ _ _ _ _ ds => ds

/-- Model of `copy(dependant)` followed by `dependant.dependencies =
new_dependencies`: a shallow clone sharing every other field. -/
def Dependant.withDependencies : Dependant → List Dependant → Dependant
  | .mk c p n uc ss _, ds => .mk c p n uc ss ds

/-- Signature analysis performed by FastAPI's `get_dependant`: the sub-dependency
trees induced by a callable's parameters, supplied abstractly as an environment. -/
def SigEnv := Callable → List Dependant

/-- Model of `fastapi.dependencies.utils.get_dependant` as `patch_dependant` calls
it: a dependant for `call` at `path` carrying the given name, cache flag and
security scopes, with the sub-dependencies of `call`'s signature. -/
def get_dependant (env : SigEnv) (call : Callable) (path : String)
    (name : Option String) (use_cache : Bool)
    (security_scopes : List String) : Dependant :=
  .mk call (some path) name use_cache security_scopes (env call)

mutual

/-- Model of `patch_dependant`: when the node's call is overridden, substitute the
dependant `get_dependant` builds for the replacement (asserting the path is
present), then recursively patch the sub-dependencies, cloning the node exactly
when some sub-dependency came back as a different object. The boolean of the
result records whether the returned dependant is a new object (`is not` the
input); `none` models a failed `assert dependant.path is not None` or exhausted
fuel (the Python recursion is unbounded, and need not terminate on cyclic
override graphs). -/
def patch_dependant (env : SigEnv) (ov : Overrides) :
    Nat → Dependant → Option (Dependant × Bool)
  | 0, _ => none
  | fuel + 1, d =>
    let sub : Option (Dependant × Bool) :=
      match lookupOv ov (Dependant.call d) with
      | some repl =>
        match Dependant.path d with
        | some pa => some (get_dependant env repl pa (Dependant.name d)
            (Dependant.use_cache d) (Dependant.security_scopes d), true)
        | none => none
      | none => some (d, false)
    match sub with
    | none => none
    | some (d1, ch1) =>
      match patch_dependant_list env ov fuel (Dependant.dependencies d1) with
      | none => none
      | some results =>
        if results.any Prod.snd then
          some (Dependant.withDependencies d1 (results.map Prod.fst), true)
        else
          some (d1, ch1)
termination_by fuel _ => (fuel, 0)

/-- The list comprehension `[patch_dependant(x, config) for x in
dependant.dependencies]`, propagating failure. -/
def patch_dependant_list (env : SigEnv) (ov : Overrides) :
    Nat → List Dependant → Option (List (Dependant × Bool))
  | _, [] => some []
  | fuel, x :: xs =>
    match patch_dependant env ov fuel x with
    | none => none
    | some r =>
      match patch_dependant_list env ov fuel xs with
      | none => none
      | some rs => some (r :: rs)
termination_by fuel l => (fuel, l.length + 1)

end

mutual

/-- No node of the tree (root included) has its call in the override mapping. -/
def noOverride (ov : Overrides) : Dependant → Bool
  | .mk c _ _ _ _ ds => (lookupOv ov c).isNone && noOverrideList ov ds

/-- List version of `noOverride`. -/
def noOverrideList (ov : Overrides) : List Dependant → Bool
  | [] => true
  | x :: xs => noOverride ov x && noOverrideList ov xs

end

mutual

/-- Height of a dependant tree: enough fuel for `patch_dependant` to traverse it. -/
def Dependant.depth : Dependant → Nat
  | .mk _ _ _ _ _ ds => depthList ds + 1

/-- Greatest height among a list of dependant trees. -/
def depthList : List Dependant → Nat
  | [] => 0
  | x :: xs => max (Dependant.depth x) (depthList xs)

end

/-! ### The app object and the setup hooks -/

/-- Model of a `fastapi.routing.APIRoute`: its tag list and its dependant. -/
structure APIRoute where
  tags : List String
  dependant : Dependant

/-- A route of `app.router.routes`: an `APIRoute`, or any other route (those are
skipped by the `isinstance(route, APIRoute)` checks). -/
inductive Route where
  | api (r : APIRoute)
  | other (id : Nat)

/-- A dict of the `app.openapi_tags` list: its `"name"` entry and the other entries. -/
structure OpenapiTag where
  name : String
  extra : List (String × String)

/-- Model of `CORSConfig`, with the source's defaults. -/
structure CORSConfig where
  allow_origins : List String := []
  allow_methods : List String := ["*"]
  allow_headers : List String := ["*"]
  allow_credentials : Bool := true
  allow_origin_regex : Option String := none
  expose_headers : List String := []
  max_age : Nat := 600

/-- An entry of the app's user middleware stack. -/
inductive Middleware where
  | cors (cfg : CORSConfig)
  | other (id : Nat)

/-- The slice of a FastAPI app that the setup hooks read and mutate. -/
structure App where
  dependency_overrides : Overrides
  routes : List Route
  openapi_tags : Option (List OpenapiTag)
  middleware : List Middleware

/-- Model of the `add_middleware` setup hook: `if config.middleware.cors is not
None: app.add_middleware(CORSMiddleware, **config.middleware.cors.model_dump())`
(FastAPI's `add_middleware` prepends to the user middleware stack). -/
def add_middleware (app : App) (cors : Option CORSConfig) : App :=
  match cors with
  | none => app
  | some c => { app with middleware := Middleware.cors c :: app.middleware }

/-- Model of `str.removesuffix(":")`: one trailing ":" removed when present. -/
def removesuffixColon (s : String) : String :=
  if s.endsWith ":" then s.dropRight 1 else s

/-- The tag rewrite `f"{config.routes.tag_prefix}{x}".removesuffix(":")`. -/
def prefixTag (pfx x : String) : String :=
  removesuffixColon (pfx ++ x)

/-- Model of the stage-100 `patch_router_tags` setup hook: when the
`patch.tag_prefixes` toggle is on, prefix every `APIRoute` tag and every
`openapi_tags` dict's `"name"` entry with the (truthy) `routes.tag_prefix`. -/
def patch_router_tags (tagPrefixes : Bool) (pfx : String) (app : App) : App :=
  if !tagPrefixes then app
  else
    let routes := app.routes.map (fun r =>
      match r with
      | .api ar =>
        if pfx ≠ "" then Route.api { ar with tags := ar.tags.map (prefixTag pfx) }
        else Route.api ar
      | .other i => Route.other i)
    let openapiNonempty : Bool :=
      match app.openapi_tags with
      | some l => !l.isEmpty
      | none => false
    let tags :=
      if openapiNonempty ∧ pfx ≠ "" then
        app.openapi_tags.map (fun l =>
          l.map (fun t => { t with name := prefixTag pfx t.name }))
      else app.openapi_tags
    { app with routes := routes, openapi_tags := tags }

/-- One route's treatment in `patch_router_dependency_overrides`: an `APIRoute`'s
dependant is rewritten, any other route is untouched. -/
def patchRoute (env : SigEnv) (ov : Overrides) (fuel : Nat) : Route → Option Route
  | .api ar =>
    match patch_dependant env ov fuel ar.dependant with
    | none => none
    | some (d, _) => some (Route.api { ar with dependant := d })
  | .other i => some (Route.other i)

/-- Python `dict.update`: existing keys keep their position and take the update's
value, new keys are appended in the update's order. -/
def dictUpdate (base upd : Overrides) : Overrides :=
  base.map (fun kv => (kv.1, (lookupOv upd kv.1).getD kv.2)) ++
    upd.filter (fun kv => (lookupOv base kv.1).isNone)

/-- The `for route in app.router.routes` loop of
`patch_router_dependency_overrides`, propagating failure. -/
def patchRoutes (env : SigEnv) (ov : Overrides) (fuel : Nat) :
    List Route → Option (List Route)
  | [] => some []
  | r :: rs =>
    match patchRoute env ov fuel r with
    | none => none
    | some r' =>
      match patchRoutes env ov fuel rs with
      | none => none
      | some rs' => some (r' :: rs')

/-- Model of the stage-100 `patch_router_dependency_overrides` setup hook: returns
the app unchanged when the override mapping is empty (falsy); otherwise merges the
mapping into `app.dependency_overrides` and replaces every `APIRoute`'s dependant
with the result of `patch_dependant`. -/
def patch_router_dependency_overrides (env : SigEnv) (fuel : Nat) (app : App)
    (ov : Overrides) : Option App :=
  if ov.isEmpty then some app
  else
    match patchRoutes env ov fuel app.routes with
    | none => none
    | some routes =>
      some { app with
        dependency_overrides := dictUpdate app.dependency_overrides ov,
        routes := routes }

/-! ### Swagger UI patching (`add_hierarchial_tags`) -/

/-- The plugin script tag inserted into the page. -/
def pluginScriptTag : String :=
  "<script src=\"https://unpkg.com/swagger-ui-plugin-hierarchical-tags\"></script>"

/-- The SwaggerUIBundle availability comment the script tag is inserted after. -/
def bundleComment : String :=
  "<!-- `SwaggerUIBundle` is now available on the page -->"

/-- The opening of the `SwaggerUIBundle` initializer. -/
def bundleInit : String :=
  "SwaggerUIBundle(\x7b"

/-- Model of the body rewriting of the patched `get_swagger_ui_html`: the two
`bytes.replace` calls (all occurrences, as in Python). -/
def patchSwaggerBody (body : String) : String :=
  (body.replace bundleComment
      (bundleComment ++ "\n" ++ pluginScriptTag)).replace
    bundleInit (bundleInit ++ "\nplugins: [HierarchicalTagsPlugin],\n")

/-- The two module attributes holding `get_swagger_ui_html` (each a function from
request data to the response body): `fastapi.openapi.docs` and
`fastapi.applications`. -/
structure SwaggerModules where
  docsHtml : String → String
  appsHtml : String → String

/-- Model of the `add_hierarchial_tags` setup hook: a no-op unless
`patch.swagger_hierarchical_tags` is set; otherwise both module attributes are
replaced by a wrapper around the function read from `fastapi.openapi.docs`,
returning its body with the plugin insertions applied. -/
def add_hierarchial_tags (toggle : Bool) (mods : SwaggerModules) : SwaggerModules :=
  if !toggle then mods
  else
    let g := mods.docsHtml
    { docsHtml := fun a => patchSwaggerBody (g a),
      appsHtml := fun a => patchSwaggerBody (g a) }

/-! ### Sample data for the concrete witnesses -/

/-- Sample pydantic model used to witness C4. -/
def mSample : ModelType :=
  .mk "User" (some "a user") "app.models"
    [("login", { annotation := Ty.named "str", default := none }),
     ("age", { annotation := Ty.named "int", default := some (Val.vint 0) })]
    none

/-- Signature environment used in the concrete witnesses: callable 2 has one
sub-dependency (callable 9), every other callable has none. -/
def envSample : SigEnv := fun c =>
  if c = 2 then [Dependant.mk 9 (some "/sub") none true [] []] else []

/-- Override mapping used in the concrete witnesses: callable 1 replaced by 2. -/
def ovSample : Overrides := [(1, 2)]

/-- A dependant tree free of overridden calls. -/
def dSample : Dependant :=
  Dependant.mk 3 (some "/a") none true [] [Dependant.mk 4 none none false [] []]

/-- The app used in the C1 witness: one `APIRoute` whose dependant's call is
overridden, and one non-API route. -/
def appSample : App :=
  { dependency_overrides := [(7, 8)],
    routes := [Route.api ⟨["t"], Dependant.mk 1 (some "/r") (some "dep") true ["s"] []⟩, Route.other 5],
    openapi_tags := none,
    middleware := [] }

/-- The hook's output on `appSample`: the mapping merged into the overrides dict,
the overridden dependant replaced (with the replacement's sub-dependency). -/
def appSample2 : App :=
  { dependency_overrides := [(7, 8), (1, 2)],
    routes := [Route.api ⟨["t"], Dependant.mk 2 (some "/r") (some "dep") true ["s"] [Dependant.mk 9 (some "/sub") none true [] []]⟩, Route.other 5],
    openapi_tags := none,
    middleware := [] }

/-! ### Helper lemmas -/

/-- Folding the per-field `setattr` over a field list: fields in the list get the
data's value, all others keep the target's value. -/
theorem foldl_setattr (g : String → Val) :
    ∀ (l : List String) (o : String → Val) (f : String),
      (f ∈ l → l.foldl (fun o field => setattrFn o field (g field)) o f = g f) ∧
      (f ∉ l → l.foldl (fun o field => setattrFn o field (g field)) o f = o f) := by
  intro l
  induction l with
  | nil => intro o f; exact ⟨fun h => absurd h (List.not_mem_nil f), fun _ => rfl⟩
  | cons x xs ih =>
    intro o f
    constructor
    · intro hf
      rcases List.mem_cons.mp hf with hx | hxs
      · by_cases hmem : f ∈ xs
        · exact (ih _ f).1 hmem
        · have := (ih (setattrFn o x (g x)) f).2 hmem
          simp only [List.foldl_cons] at *
          rw [this, hx, setattrFn, if_pos rfl]
      · exact (ih _ f).1 hxs
    · intro hf
      have hx : f ≠ x := fun h => hf (h ▸ List.mem_cons_self x xs)
      have hxs : f ∉ xs := fun h => hf (List.mem_cons_of_mem x h)
      have := (ih (setattrFn o x (g x)) f).2 hxs
      simp only [List.foldl_cons] at *
      rw [this, setattrFn, if_neg hx]

/-- With distinct keys, `find?` at a member's key returns exactly that member. -/
theorem find?_eq_self_of_nodup {l : List (String × FieldDecl)}
    (hnd : (l.map Prod.fst).Nodup) {kv : String × FieldDecl} (hm : kv ∈ l) :
    l.find? (fun x => x.1 == kv.1) = some kv := by
  induction l with
  | nil => cases hm
  | cons y ys ih =>
    rcases List.mem_cons.mp hm with hy | hys
    · subst hy
      simp [List.find?]
    · have hnd' : (ys.map Prod.fst).Nodup := (List.nodup_cons.mp hnd).2
      have hne : y.1 ≠ kv.1 := by
        intro he
        exact (List.nodup_cons.mp hnd).1
          (he ▸ List.mem_map.mpr ⟨kv, hys, rfl⟩)
      simp only [List.find?]
      rw [show (y.1 == kv.1) = false from beq_eq_false_iff_ne.mpr hne]
      exact ih hnd' hys

/-- Collecting fields against a full key-preserving redeclaration yields exactly the
redeclared fields. -/
theorem collectFields_map_self (l : List (String × FieldDecl))
    (hnd : (l.map Prod.fst).Nodup) (g : FieldDecl → FieldDecl) :
    collectFields l (l.map (fun kv => (kv.1, g kv.2))) =
      l.map (fun kv => (kv.1, g kv.2)) := by
  unfold collectFields
  have hfind : ∀ kv ∈ l,
      (l.map (fun kv => (kv.1, g kv.2))).find? (fun x => x.1 == kv.1) =
        some (kv.1, g kv.2) := by
    intro kv hm
    have : (l.map (fun kv => (kv.1, g kv.2))).map Prod.fst = l.map Prod.fst := by
      simp [List.map_map]
    exact find?_eq_self_of_nodup (by rw [this]; exact hnd)
      (List.mem_map.mpr ⟨kv, hm, rfl⟩)
  have hmap : l.map (fun kv => (kv.1, (lookupField (l.map fun kv => (kv.1, g kv.2)) kv.1).getD kv.2)) =
      l.map (fun kv => (kv.1, g kv.2)) := by
    apply List.map_congr_left
    intro kv hm
    rw [lookupField, hfind kv hm]
    rfl
  have hfilter : (l.map (fun kv => (kv.1, g kv.2))).filter
      (fun kv => (lookupField l kv.1).isNone) = [] := by
    rw [List.filter_eq_nil_iff]
    intro a ha
    rcases List.mem_map.mp ha with ⟨kv, hm, he⟩
    have : l.find? (fun x => x.1 == kv.1) = some kv := find?_eq_self_of_nodup hnd hm
    subst he
    simp [lookupField, this]
  rw [hmap, hfilter, List.append_nil]

/-! ### Theorems for claims C4, C5 -/

/-- C5. Partial-update application frame property: `p.apply(t)` sets on `t` exactly
the attributes named in `p.data.__pydantic_fields_set__`, each to the value from
`p.data`, and every other attribute of `t` is unchanged. -/
theorem C5_patch_apply_frame (p : Patch) (tgt : String → Val) (f : String) :
    (f ∈ p.data.fieldsSet → Patch.apply p tgt f = p.data.getattr f) ∧
    (f ∉ p.data.fieldsSet → Patch.apply p tgt f = tgt f) :=
  foldl_setattr p.data.getattr p.data.fieldsSet tgt f

/-- C4. Partial-update model generation: `Patch._update_model(M)` returns a subclass
of `M` named `M.__name__ + "Patch"`, carrying `M`'s docstring and module, in which
every field of `M` is re-declared with annotation `original | SkipJsonSchema[None]`
and default `None`. -/
theorem C4_update_model (m : ModelType)
    (hnd : ((ModelType.fields m).map Prod.fst).Nodup) :
    ModelType.name (Patch.update_model m) = ModelType.name m ++ "Patch" ∧
    ModelType.base (Patch.update_model m) = some m ∧
    ModelType.doc (Patch.update_model m) = ModelType.doc m ∧
    ModelType.module (Patch.update_model m) = ModelType.module m ∧
    ModelType.fields (Patch.update_model m) =
      (ModelType.fields m).map (fun kv =>
        (kv.1, { annotation := Ty.union (FieldDecl.annotation kv.2) Ty.skipJsonSchemaNone,
                 default := some Val.vnone : FieldDecl })) := by
  refine ⟨rfl, rfl, rfl, rfl, ?_⟩
  show collectFields (ModelType.fields m)
      ((ModelType.fields m).map (fun kv => (kv.1, patchFieldDecl kv.2))) = _
  rw [collectFields_map_self _ hnd patchFieldDecl]
  rfl

/-- Witness for C4 at a concrete two-field model. -/
theorem C4_update_model_witness :
    ModelType.name (Patch.update_model mSample) = ModelType.name mSample ++ "Patch" ∧
    ModelType.base (Patch.update_model mSample) = some mSample ∧
    ModelType.doc (Patch.update_model mSample) = ModelType.doc mSample ∧
    ModelType.module (Patch.update_model mSample) = ModelType.module mSample ∧
    ModelType.fields (Patch.update_model mSample) =
      (ModelType.fields mSample).map (fun kv =>
        (kv.1, { annotation := Ty.union (FieldDecl.annotation kv.2) Ty.skipJsonSchemaNone,
                 default := some Val.vnone : FieldDecl })) :=
  C4_update_model mSample (by decide)

/-! ### Lemmas about `patch_dependant` -/

/-- Depth of a dependant is at least one. -/
theorem depth_pos (d : Dependant) : 1 ≤ Dependant.depth d := by
  cases d with
  | mk c p n uc ss ds => simp [Dependant.depth]

/-- Depth of a member bounds from below the depth of the list. -/
theorem depth_mem_le {x : Dependant} : ∀ {l : List Dependant}, x ∈ l →
    Dependant.depth x ≤ depthList l := by
  intro l h
  induction l with
  | nil => cases h
  | cons y ys ih =>
    simp only [depthList]
    rcases List.mem_cons.mp h with rfl | hys
    · exact Nat.le_max_left _ _
    · exact Nat.le_trans (ih hys) (Nat.le_max_right _ _)

/-- Rewriting a tree none of whose calls is overridden returns it unchanged and
uncloned, given enough fuel. -/
theorem patch_noOverride (env : SigEnv) (ov : Overrides) :
    ∀ fuel : Nat,
      (∀ d : Dependant, Dependant.depth d ≤ fuel → noOverride ov d = true →
        patch_dependant env ov fuel d = some (d, false)) ∧
      (∀ l : List Dependant, (∀ x ∈ l, Dependant.depth x ≤ fuel) →
        noOverrideList ov l = true →
        patch_dependant_list env ov fuel l = some (l.map (fun d => (d, false)))) := by
  intro fuel
  induction fuel with
  | zero =>
    constructor
    · intro d hd _
      have := depth_pos d
      omega
    · intro l hl _
      cases l with
      | nil => simp [patch_dependant_list]
      | cons x xs =>
        have := depth_pos x
        have := hl x (List.mem_cons_self x xs)
        omega
  | succ fuel ih =>
    have part1 : ∀ d : Dependant, Dependant.depth d ≤ fuel + 1 →
        noOverride ov d = true →
        patch_dependant env ov (fuel + 1) d = some (d, false) := by
      intro d hd hno
      cases d with
      | mk c p n uc ss ds =>
        simp only [noOverride, Bool.and_eq_true] at hno
        obtain ⟨hc, hds⟩ := hno
        have hclookup : lookupOv ov c = none := Option.isNone_iff_eq_none.mp hc
        have hdepth : ∀ x ∈ ds, Dependant.depth x ≤ fuel := by
          intro x hx
          have h1 : Dependant.depth x ≤ depthList ds := depth_mem_le hx
          have h2 : Dependant.depth (Dependant.mk c p n uc ss ds) = depthList ds + 1 := by
            simp [Dependant.depth]
          omega
        have hlist := ih.2 ds hdepth hds
        simp only [patch_dependant, Dependant.call, Dependant.path, Dependant.name,
          Dependant.use_cache, Dependant.security_scopes, Dependant.dependencies,
          hclookup, hlist]
        simp [List.any_map, Function.comp]
    have part2 : ∀ l : List Dependant, (∀ x ∈ l, Dependant.depth x ≤ fuel + 1) →
        noOverrideList ov l = true →
        patch_dependant_list env ov (fuel + 1) l =
          some (l.map (fun d => (d, false))) := by
      intro l
      induction l with
      | nil => intro _ _; simp [patch_dependant_list]
      | cons x xs ihl =>
        intro hdep hno
        simp only [noOverrideList, Bool.and_eq_true] at hno
        obtain ⟨hx, hxs⟩ := hno
        have h1 := part1 x (hdep x (List.mem_cons_self x xs)) hx
        have h2 := ihl (fun y hy => hdep y (List.mem_cons_of_mem x hy)) hxs
        simp [patch_dependant_list, h1, h2]
    exact ⟨part1, part2⟩

/-- A rewriting result flagged as not cloned is the input dependant itself. -/
theorem patch_changedFalse (env : SigEnv) (ov : Overrides) (fuel : Nat)
    (d d' : Dependant) (h : patch_dependant env ov fuel d = some (d', false)) :
    d' = d := by
  cases fuel with
  | zero => simp [patch_dependant] at h
  | succ fuel =>
    cases d with
    | mk c p n uc ss ds =>
      simp only [patch_dependant, Dependant.call, Dependant.path, Dependant.name,
        Dependant.use_cache, Dependant.security_scopes, Dependant.dependencies] at h
      split at h
      · exact absurd h (by simp)
      · rename_i d1 ch1 heq
        split at h
        · exact absurd h (by simp)
        · split at h
          · simp at h
          · rw [Option.some_inj] at h
            injection h with hd1 hch1
            subst hd1
            subst hch1
            split at heq
            · split at heq
              · injection heq with heq2
                injection heq2 with _ hsnd
                exact absurd hsnd (by simp)
              · exact absurd heq (by simp)
            · injection heq with heq2
              injection heq2 with hfst _
              exact hfst.symm

/-- When every element of a list result is flagged unchanged, the results are the
inputs. -/
theorem patch_list_unchanged (env : SigEnv) (ov : Overrides) (fuel : Nat) :
    ∀ (l : List Dependant) (rs : List (Dependant × Bool)),
      patch_dependant_list env ov fuel l = some rs →
      rs.any Prod.snd = false → rs.map Prod.fst = l := by
  intro l
  induction l with
  | nil =>
    intro rs h _
    simp only [patch_dependant_list] at h
    rw [← Option.some_inj.mp h]
    rfl
  | cons x xs ih =>
    intro rs h hany
    simp only [patch_dependant_list] at h
    cases hx : patch_dependant env ov fuel x with
    | none => simp [hx] at h
    | some r =>
      simp only [hx] at h
      cases hxs : patch_dependant_list env ov fuel xs with
      | none => simp [hxs] at h
      | some rs' =>
        simp only [hxs] at h
        obtain ⟨a, b⟩ := r
        have hrs : (a, b) :: rs' = rs := Option.some_inj.mp h
        subst hrs
        simp only [List.any_cons, Bool.or_eq_false_iff] at hany
        obtain ⟨hr, hrest⟩ := hany
        have hb : b = false := hr
        subst hb
        have hfst : a = x := patch_changedFalse env ov fuel x a hx
        simp only [List.map_cons]
        rw [hfst, ih rs' hxs hrest]

/-! ### Lemmas about `dictUpdate` -/

/-- Drop from a `find?` predicate a conjunct implied by the other one. -/
theorem find?_and_left {α : Type} (p c : α → Bool)
    (h : ∀ a, p a = true → c a = true) :
    ∀ l : List α, l.find? (fun a => c a && p a) = l.find? p := by
  intro l
  induction l with
  | nil => rfl
  | cons x xs ih =>
    cases hp : p x with
    | true =>
      rw [List.find?_cons_of_pos _ (by simp [hp, h x hp]),
        List.find?_cons_of_pos _ hp]
    | false =>
      rw [List.find?_cons_of_neg _ (by simp [hp]),
        List.find?_cons_of_neg _ (by simp [hp]), ih]

/-- Lookup after a Python `dict.update`: the update's value when the key is a key of
the update, the base's value otherwise. -/
theorem lookupOv_dictUpdate (base upd : Overrides) (k : Callable) :
    lookupOv (dictUpdate base upd) k =
      match lookupOv upd k with
      | some v => some v
      | none => lookupOv base k := by
  have hL : lookupOv (dictUpdate base upd) k =
      ((base.map (fun kv => (kv.1, (lookupOv upd kv.1).getD kv.2)) ++
        upd.filter (fun kv => (lookupOv base kv.1).isNone)).find?
          (fun kv => kv.1 == k)).map Prod.snd := rfl
  rw [hL, List.find?_append, List.find?_map]
  have hcomp : ((fun kv : Callable × Callable => kv.1 == k) ∘
      (fun kv : Callable × Callable => (kv.1, (lookupOv upd kv.1).getD kv.2))) =
      (fun kv : Callable × Callable => kv.1 == k) := rfl
  rw [hcomp]
  cases hbase : base.find? (fun kv => kv.1 == k) with
  | some bkv =>
    have hk : bkv.1 = k := by simpa using List.find?_some hbase
    cases hupd : lookupOv upd k with
    | some v => simp [hk, hupd]
    | none =>
      have hupd' : upd.find? (fun kv => kv.1 == k) = none := by
        rw [List.find?_eq_none]
        intro x hx
        have h2 := hupd
        simp [lookupOv] at h2
        simpa using h2 x.1 x.2 hx
      simp [hk, lookupOv, hbase, hupd']
  | none =>
    rw [List.find?_filter]
    have hdrop : upd.find?
        (fun a => decide ((lookupOv base a.1).isNone = true ∧ (a.1 == k) = true)) =
        upd.find? (fun kv => kv.1 == k) := by
      have himp : ∀ a : Callable × Callable, (a.1 == k) = true →
          (lookupOv base a.1).isNone = true := by
        intro a ha
        have hak : a.1 = k := by simpa using ha
        have : lookupOv base k = none := by
          simp [lookupOv, hbase]
        simp [hak, this]
      have hfun : (fun a : Callable × Callable =>
          decide ((lookupOv base a.1).isNone = true ∧ (a.1 == k) = true)) =
          (fun a : Callable × Callable => (lookupOv base a.1).isNone && (a.1 == k)) := by
        funext a
        cases hx : (lookupOv base a.1).isNone <;> cases hy : (a.1 == k) <;>
          simp [hx, hy]
      rw [hfun]
      exact find?_and_left _ _ himp upd
    rw [hdrop]
    cases hupd : upd.find? (fun kv => kv.1 == k) with
    | some ukv =>
      have hk : ukv.1 = k := by simpa using List.find?_some hupd
      simp [lookupOv, hupd]
    | none => simp [lookupOv, hupd, hbase]

/-! ### Theorems for claims C2, C6, C10 -/

/-- C2. Server selection: the run hook calls `run_uvicorn` exactly when the `server`
configuration key is `"uvicorn"` and `run_hypercorn` exactly when it is
`"hypercorn"`. -/
theorem C2_server_selection :
    ∀ s : ServerSel,
      (run_fastapi_app s = RunAction.runsUvicorn ↔ s = ServerSel.uvicorn) ∧
      (run_fastapi_app s = RunAction.runsHypercorn ↔ s = ServerSel.hypercorn) := by
  intro s
  cases s <;> simp [run_fastapi_app]

/-- C6. Dependable wrapper transparency: `Dependable(fn)` is a `Depends` object whose
dependency is `fn`, and calling the wrapper returns exactly `fn` applied to the
arguments. -/
theorem C6_dependable_transparency {α β : Type} (fn : α → β) :
    (Dependable fn).dependency = some fn ∧
    (Dependable fn).use_cache = true ∧
    ∀ a : α, wrapperCall (Dependable fn) a = some (fn a) := by
  refine ⟨rfl, rfl, ?_⟩
  intro a
  rfl

/-- C10. Asymmetry of the enabled flags: `run_uvicorn` returns without serving when
`uvicorn.enabled` is false and raises `NotImplementedError` for `reload`, `uds` or
more than one worker; `run_hypercorn` never consults `hypercorn.enabled` — for every
settings value (enabled or not) it reaches `serve`, passing the full config mapping
with the `enabled` key included. -/
theorem C10_enabled_flag_asymmetry (s : UvicornSettings) (h : HypercornSettings) :
    (s.enabled = false → run_uvicorn s = UvicornOutcome.skipped) ∧
    (s.enabled = true → s.reload = true →
      run_uvicorn s = UvicornOutcome.errNotImplemented "reloads are not supported") ∧
    (s.enabled = true → s.reload = false → s.uds.isSome →
      run_uvicorn s = UvicornOutcome.errNotImplemented "uds is not implemented") ∧
    (s.enabled = true → s.reload = false → s.uds = none → s.workers > 1 →
      run_uvicorn s = UvicornOutcome.errNotImplemented "Multiprocess is not implemented") ∧
    (run_hypercorn h "asyncio" = HypercornOutcome.servedAsyncio (hypercornMapping h)) ∧
    (run_hypercorn h "trio" = HypercornOutcome.servedTrio (hypercornMapping h)) ∧
    ("enabled", HVal.hb h.enabled) ∈ hypercornMapping h ∧
    ({} : HypercornSettings).enabled = false := by
  refine ⟨?_, ?_, ?_, ?_, rfl, rfl, ?_, rfl⟩
  · intro he; simp [run_uvicorn, he]
  · intro he hr; simp [run_uvicorn, he, hr]
  · intro he hr hu; simp [run_uvicorn, he, hr, hu]
  · intro he hr hu hw; simp [run_uvicorn, he, hr, hu, Nat.not_le.mpr hw, hw]
  · simp [hypercornMapping]


/-! ### Theorems for claims C3, C7, C8 -/

/-- C7. CORS configuration: the middleware hook adds the CORS middleware — built
from exactly the `CORSConfig` fields — if and only if `middleware.cors` is not
`None`; with `None` the app (its middleware stack included) is unchanged. -/
theorem C7_cors_middleware (app : App) (cors : Option CORSConfig) :
    (cors = none → add_middleware app cors = app) ∧
    (∀ c : CORSConfig, cors = some c →
      add_middleware app cors =
        { app with middleware := Middleware.cors c :: app.middleware }) := by
  constructor
  · intro h
    subst h
    rfl
  · intro c h
    subst h
    rfl

/-- C8. Swagger UI patching: with the toggle off the hook changes nothing; with it
on, both module attributes are replaced by one wrapper that returns the original
body with the plugin script tag appended to the availability comment and a
`plugins: [HierarchicalTagsPlugin]` entry inserted into the `SwaggerUIBundle`
initializer (every occurrence, as `bytes.replace` does). -/
theorem C8_swagger_patching (toggle : Bool) (mods : SwaggerModules) :
    (toggle = false → add_hierarchial_tags toggle mods = mods) ∧
    (toggle = true →
      SwaggerModules.docsHtml (add_hierarchial_tags toggle mods) =
        (fun a => patchSwaggerBody (SwaggerModules.docsHtml mods a)) ∧
      SwaggerModules.appsHtml (add_hierarchial_tags toggle mods) =
        (fun a => patchSwaggerBody (SwaggerModules.docsHtml mods a)) ∧
      ∀ a : String, patchSwaggerBody (SwaggerModules.docsHtml mods a) =
        ((SwaggerModules.docsHtml mods a).replace bundleComment
            (bundleComment ++ "\n" ++ pluginScriptTag)).replace bundleInit
          (bundleInit ++ "\nplugins: [HierarchicalTagsPlugin],\n")) := by
  constructor
  · intro h
    subst h
    rfl
  · intro h
    subst h
    exact ⟨rfl, rfl, fun a => rfl⟩

/-- C3. OpenAPI tag prefixing: with the `tag_prefixes` toggle on and a non-empty
prefix, every `APIRoute` tag `x` becomes `tag_prefix + x` with one trailing ":"
removed if present, and the `"name"` entry of every `openapi_tags` dict is
rewritten the same way; with the toggle off or an empty prefix nothing changes. -/
theorem C3_tag_prefixing (tagPrefixes : Bool) (pfx : String) (app : App) :
    (tagPrefixes = true → pfx ≠ "" →
      App.routes (patch_router_tags tagPrefixes pfx app) = app.routes.map (fun r =>
        match r with
        | Route.api ar => Route.api { ar with tags := List.map (fun x => removesuffixColon (pfx ++ x)) ar.tags }
        | Route.other i => Route.other i) ∧
      App.openapi_tags (patch_router_tags tagPrefixes pfx app) =
        app.openapi_tags.map (fun l => l.map
          (fun t => { t with name := removesuffixColon (pfx ++ t.name) })) ∧
      App.dependency_overrides (patch_router_tags tagPrefixes pfx app) =
        app.dependency_overrides ∧
      App.middleware (patch_router_tags tagPrefixes pfx app) = app.middleware) ∧
    ((tagPrefixes = false ∨ pfx = "") → patch_router_tags tagPrefixes pfx app = app) := by
  constructor
  · intro ht hp
    subst ht
    refine ⟨?_, ?_, ?_, ?_⟩
    · simp only [patch_router_tags, Bool.not_true, Bool.false_eq_true, if_false]
      apply List.map_congr_left
      intro r _
      cases r <;> simp [prefixTag, hp]
    · simp only [patch_router_tags, Bool.not_true, Bool.false_eq_true, if_false]
      cases happ : app.openapi_tags with
      | none => simp [happ]
      | some l =>
        cases l with
        | nil => simp [happ]
        | cons t ts => simp [happ, hp, prefixTag]
    · rfl
    · rfl
  · intro h
    rcases h with h | h
    · subst h
      rfl
    · subst h
      cases htp : tagPrefixes with
      | false => rfl
      | true =>
        show patch_router_tags true "" app = app
        have hid2 : ∀ r : Route, (match r with
            | Route.api ar => Route.api ar
            | Route.other i => Route.other i) = r := by
          intro r
          cases r <;> rfl
        simp [patch_router_tags, List.map_id'' hid2 app.routes]

/-! ### Theorems for claims C9 and C1 -/

/-- C9. Implicit identity of override rewriting: on a dependant tree none of whose
calls (root or transitive sub-dependency) is a key of the override mapping,
`patch_dependant` returns the very same dependant it was given, not a clone (the
changed flag is `false`), given fuel covering the tree's depth. -/
theorem C9_patch_dependant_identity (env : SigEnv) (ov : Overrides) (d : Dependant)
    (fuel : Nat) (hfuel : Dependant.depth d ≤ fuel) (hno : noOverride ov d = true) :
    patch_dependant env ov fuel d = some (d, false) :=
  (patch_noOverride env ov fuel).1 d hfuel hno

/-- Witness for C9 at a concrete two-node tree. -/
theorem C9_witness :
    patch_dependant envSample ovSample 2 dSample = some (dSample, false) :=
  C9_patch_dependant_identity envSample ovSample dSample 2
    (by simp [dSample, Dependant.depth, depthList])
    (by simp [dSample, noOverride, noOverrideList, lookupOv, ovSample])

/-- C1. Dependency-override rewriting: with a non-empty override mapping, the
stage-100 hook merges the whole mapping into `app.dependency_overrides` and
replaces every `APIRoute`'s dependant with the result of `patch_dependant`; a node
whose call is a key of the mapping is substituted by the dependant built from the
replacement callable with path, name, `use_cache` and `security_scopes` preserved,
and every node's sub-dependency list is rewritten recursively. -/
theorem C1_dependency_override_rewriting (env : SigEnv) (ov : Overrides)
    (fuel : Nat) (app app' : App) (hne : ov ≠ [])
    (hrun : patch_router_dependency_overrides env fuel app ov = some app') :
    (App.dependency_overrides app' =
        dictUpdate (App.dependency_overrides app) ov ∧
      (∀ k v, lookupOv ov k = some v →
        lookupOv (App.dependency_overrides app') k = some v) ∧
      patchRoutes env ov fuel (App.routes app) = some (App.routes app') ∧
      App.openapi_tags app' = App.openapi_tags app ∧
      App.middleware app' = App.middleware app) ∧
    (∀ (f2 : Nat) (c : Callable) (pa : String) (n : Option String) (uc : Bool)
        (ss : List String) (ds : List Dependant) (repl : Callable)
        (d' : Dependant) (ch : Bool),
      lookupOv ov c = some repl →
      patch_dependant env ov (f2 + 1) (Dependant.mk c (some pa) n uc ss ds) =
        some (d', ch) →
      Dependant.call d' = repl ∧ Dependant.path d' = some pa ∧
      Dependant.name d' = n ∧ Dependant.use_cache d' = uc ∧
      Dependant.security_scopes d' = ss ∧ ch = true ∧
      ∃ rs, patch_dependant_list env ov f2 (env repl) = some rs ∧
        Dependant.dependencies d' = rs.map Prod.fst) := by
  constructor
  · have hne' : ov.isEmpty = false := by
      cases ov with
      | nil => exact absurd rfl hne
      | cons x xs => rfl
    unfold patch_router_dependency_overrides at hrun
    rw [hne'] at hrun
    simp only [Bool.false_eq_true, if_false] at hrun
    cases hpr : patchRoutes env ov fuel (App.routes app) with
    | none => rw [hpr] at hrun; exact absurd hrun (by simp)
    | some routes =>
      rw [hpr] at hrun
      rw [Option.some_inj] at hrun
      subst hrun
      refine ⟨rfl, ?_, rfl, rfl, rfl⟩
      intro k v hkv
      show lookupOv (dictUpdate (App.dependency_overrides app) ov) k = some v
      rw [lookupOv_dictUpdate, hkv]
  · intro f2 c pa n uc ss ds repl d' ch hc hpatch
    simp only [patch_dependant, Dependant.call, Dependant.path, Dependant.name,
      Dependant.use_cache, Dependant.security_scopes, Dependant.dependencies,
      get_dependant, hc] at hpatch
    cases hl : patch_dependant_list env ov f2 (env repl) with
    | none => rw [hl] at hpatch; exact absurd hpatch (by simp)
    | some rs =>
      rw [hl] at hpatch
      cases hany : rs.any Prod.snd with
      | true =>
        simp only [hany, if_true] at hpatch
        rw [Option.some_inj] at hpatch
        injection hpatch with h1 h2
        subst h1
        subst h2
        exact ⟨rfl, rfl, rfl, rfl, rfl, rfl, rs, rfl, rfl⟩
      | false =>
        simp only [hany, Bool.false_eq_true, if_false] at hpatch
        rw [Option.some_inj] at hpatch
        injection hpatch with h1 h2
        subst h1
        subst h2
        have hdep := patch_list_unchanged env ov f2 (env repl) rs hl hany
        exact ⟨rfl, rfl, rfl, rfl, rfl, rfl, rs, rfl, hdep.symm⟩

/-- Witness for C1: the hook evaluated on a concrete app and override mapping. -/
theorem C1_witness :
    (App.dependency_overrides appSample2 =
        dictUpdate (App.dependency_overrides appSample) ovSample ∧
      (∀ k v, lookupOv ovSample k = some v →
        lookupOv (App.dependency_overrides appSample2) k = some v) ∧
      patchRoutes envSample ovSample 3 (App.routes appSample) =
        some (App.routes appSample2) ∧
      App.openapi_tags appSample2 = App.openapi_tags appSample ∧
      App.middleware appSample2 = App.middleware appSample) ∧
    (∀ (f2 : Nat) (c : Callable) (pa : String) (n : Option String) (uc : Bool)
        (ss : List String) (ds : List Dependant) (repl : Callable)
        (d' : Dependant) (ch : Bool),
      lookupOv ovSample c = some repl →
      patch_dependant envSample ovSample (f2 + 1)
          (Dependant.mk c (some pa) n uc ss ds) = some (d', ch) →
      Dependant.call d' = repl ∧ Dependant.path d' = some pa ∧
      Dependant.name d' = n ∧ Dependant.use_cache d' = uc ∧
      Dependant.security_scopes d' = ss ∧ ch = true ∧
      ∃ rs, patch_dependant_list envSample ovSample f2 (envSample repl) = some rs ∧
        Dependant.dependencies d' = rs.map Prod.fst) := by
  have henv2 : envSample 2 = [Dependant.mk 9 (some "/sub") none true [] []] := rfl
  have e0 : patch_dependant envSample [(1, 2)] 2
      (Dependant.mk 9 (some "/sub") none true [] []) =
      some (Dependant.mk 9 (some "/sub") none true [] [], false) := by
    show patch_dependant envSample [(1, 2)] (1 + 1)
      (Dependant.mk 9 (some "/sub") none true [] []) = _
    simp [patch_dependant, patch_dependant_list,
      show lookupOv [(1, 2)] 9 = none from rfl,
      Dependant.call, Dependant.path, Dependant.name, Dependant.use_cache,
      Dependant.security_scopes, Dependant.dependencies]
  have elist : patch_dependant_list envSample [(1, 2)] 2
      [Dependant.mk 9 (some "/sub") none true [] []] =
      some [(Dependant.mk 9 (some "/sub") none true [] [], false)] := by
    simp [patch_dependant_list, e0]
  have e1 : patch_dependant envSample [(1, 2)] 3
      (Dependant.mk 1 (some "/r") (some "dep") true ["s"] []) =
      some (Dependant.mk 2 (some "/r") (some "dep") true ["s"]
        [Dependant.mk 9 (some "/sub") none true [] []], true) := by
    show patch_dependant envSample [(1, 2)] (2 + 1)
      (Dependant.mk 1 (some "/r") (some "dep") true ["s"] []) = _
    simp [patch_dependant, get_dependant, henv2, elist,
      show lookupOv [(1, 2)] 1 = some 2 from rfl,
      Dependant.call, Dependant.path, Dependant.name, Dependant.use_cache,
      Dependant.security_scopes, Dependant.dependencies]
  have hrun : patch_router_dependency_overrides envSample 3 appSample ovSample =
      some appSample2 := by
    show patch_router_dependency_overrides envSample 3 appSample [(1, 2)] =
      some appSample2
    unfold patch_router_dependency_overrides
    simp [appSample, appSample2, patchRoutes, patchRoute, e1,
      dictUpdate, lookupOv]
  exact C1_dependency_override_rewriting envSample ovSample 3 appSample appSample2
    (by simp [ovSample]) hrun

end RewireFastapi
